import Mathlib

/-!
# A verification development for `parrot.cpp`

`parrot.cpp` defines a value-semantic holder `parrot` that owns, through a
`std::shared_ptr<animal>`, one heap instance of the interface `animal`, with the
example classes `dog` and `cat`, the wrapper `maybe<T>` and the helper
`detail::rep_str`.

The embedding is shallow.

* A `std::string` is the Lean `String` of its chars, `size()` is `String.length`.
* The free store is an explicit `Heap`: a list of objects, an address is an index,
  `new` appends.  A `std::shared_ptr`/`std::unique_ptr` is an `Option Addr`
  (`none` is the null pointer).
* A function that can throw, or run into undefined behaviour, returns `Except Error _`.
* `int` arguments are `Int`; the conversion to `std::size_t` is written `% 2 ^ 64`.
* The recursion of the virtual calls `clone` and `make_sound` through nested holders
  follows the pointers of the heap; it takes a budget of hops, and the public
  functions give it `h.length` hops, which every chain without a repeated address has
  room in.  Running out of budget stands for the non-termination of the C++ code on a
  cyclic heap.
-/

namespace sample

/-- The ways an operation of `parrot.cpp` can fail to return. -/
inductive Error where
  /-- A thrown `std::logic_error(what)`. -/
  | logic_error (what : String)
  /-- The exception of `std::string::resize` for a size no string can have. -/
  | length_error
  /-- Undefined behaviour: a member call through a null pointer. -/
  | null_deref
  /-- An address outside the heap; no `shared_ptr` of the program is in this state. -/
  | dangling
  /-- The budget of hops is used up: the chain of held instances does not end. -/
  | no_fuel
  deriving DecidableEq, Repr

/-- Equality of results is decidable, so that a result can be compared by evaluation. -/
instance decEqExcept {ε α : Type} [DecidableEq ε] [DecidableEq α] :
    DecidableEq (Except ε α)
  | .ok a, .ok b =>
    if h : a = b then isTrue (by rw [h]) else isFalse (fun h1 => h (Except.ok.inj h1))
  | .error a, .error b =>
    if h : a = b then isTrue (by rw [h]) else isFalse (fun h1 => h (Except.error.inj h1))
  | .ok _, .error _ => isFalse (fun h1 => nomatch h1)
  | .error _, .ok _ => isFalse (fun h1 => nomatch h1)

namespace detail

/-- The char `'\0'` that `std::string::resize` fills new positions with. -/
def NUL : Char := Char.ofNat 0

/-- The largest size a `std::string` can have with a 64-bit `size_t`: no
implementation has `max_size()` above `2 ^ 63 - 1`. -/
def max_size : Nat := 2 ^ 63 - 1

/-- The loop `for (int i = 0; i < n; ++i) result.append(view);` run `k` times. -/
def append_loop (view : String) : Nat → String → String
  | 0, result => result
  | k + 1, result => append_loop view k (result ++ view)

/-- Embedding of `detail::rep_str` (lines 27-35).

`view.size() * n` is computed in `std::size_t`: `n` is converted modulo `2 ^ 64` and
the product wraps.  `resize` throws when the size exceeds `max_size`; below it the
resize, and the appends after it, are taken to succeed (memory is not bounded, and the
length test of `append` is not modelled).  `resize` makes `result` that many
`'\0'` chars, and the loop, which runs `n` times for `n > 0` and not at all otherwise,
appends `view` behind them. -/
def rep_str (view : String) (n : Int) : Except Error String :=
  let size := (view.length * (n % 2 ^ 64).toNat) % 2 ^ 64
  if max_size < size then .error .length_error
  else .ok (append_loop view n.toNat (String.mk (List.replicate size NUL)))

end detail

/-- Embedding of `maybe<T>` (lines 43-104): the members `internal_` and `has_value_`. -/
structure maybe (T : Type) where
  internal_ : T
  has_value_ : Bool
  deriving DecidableEq, Repr

namespace maybe

/-- The constructor `maybe(std::nullopt_t)` (lines 57-60); `dflt` is the
value-initialised `T` of `internal_()`. -/
def nullopt {T : Type} (dflt : T) : maybe T := ⟨dflt, false⟩

/-- The constructors `maybe(const T&)` and `maybe(T&&)` (lines 62-70). -/
def of_value {T : Type} (value : T) : maybe T := ⟨value, true⟩

/-- The accessor `has_value()` (line 78). -/
def has_value {T : Type} (m : maybe T) : Bool := m.has_value_

/-- The accessor `value()` (lines 80-98). -/
def value {T : Type} (m : maybe T) : Except Error T :=
  if m.has_value then .ok m.internal_ else .error (.logic_error "invalid access]")

end maybe

/-- An address of the free store. -/
abbrev Addr := Nat

/-- Embedding of the data of `class parrot` (line 228): `internal_`, a
`std::shared_ptr<animal>`, null or the address of the held instance. -/
structure parrot where
  internal_ : Option Addr
  deriving DecidableEq, Repr

/-- An object of a class derived from `animal` (lines 109-230): its dynamic type with
its members.  `dog` and `cat` have no members. -/
inductive animal where
  | dog
  | cat
  | parrot (self : parrot)
  deriving DecidableEq, Repr

/-- The free store: the object at each allocated address. -/
abbrev Heap := List animal

/-- The classes of the hierarchy, the types a pointer cast can name. -/
inductive Ty where
  | animal
  | dog
  | cat
  | parrot
  /-- A class outside the hierarchy of `animal`. -/
  | other
  deriving DecidableEq, Repr

/-- The classes that have instances (`animal` is abstract): the types `T` for which
`operator T` and `operator maybe<T>` compile. -/
inductive Concrete where
  | dog
  | cat
  | parrot
  deriving DecidableEq, Repr

/-- The class a concrete type names. -/
def Concrete.toTy : Concrete → Ty
  | .dog => .dog
  | .cat => .cat
  | .parrot => .parrot

/-- The value-initialised object of a concrete class (`T()`). -/
def Concrete.init : Concrete → animal
  | .dog => .dog
  | .cat => .cat
  | .parrot => .parrot ⟨none⟩

/-- The dynamic type of an object. -/
def animal.type : animal → Concrete
  | .dog => .dog
  | .cat => .cat
  | .parrot _ => .parrot

/-- The test of `dynamic_cast`: an object of class `D` is a `T` when `T` is `D` or its
base `animal` (lines 120, 128, 139: each class derives from `animal` only). -/
def Ty.is_base_of (T : Ty) (D : Concrete) : Bool :=
  T = .animal || T = D.toTy

/-- The expression `new X(...)`: the object goes to the next free address. -/
def alloc (h : Heap) (obj : animal) : Heap × Addr := (h ++ [obj], h.length)

/-- Embedding of `std::dynamic_pointer_cast<T>(p)`: null for a null `p` and for a
pointee that is not a `T`, else `p` itself (the result shares the instance). -/
def dynamic_pointer_cast (T : Ty) (h : Heap) (p : Option Addr) : Option Addr :=
  match p with
  | none => none
  | some a =>
    match h[a]? with
    | none => none
    | some obj => if T.is_base_of obj.type then some a else none

/-- The virtual call `anm.make_sound(n)` with a budget of hops: lines 122 and 130 for a
`dog` and a `cat`, lines 175-183 for a `parrot`, which delegates to the held instance.
The result is the text written to `std::cout`. -/
def make_sound_aux : Nat → Heap → animal → Int → Except Error String
  | _, _, .dog, n => (detail.rep_str "woof" n).map (· ++ "\n")
  | _, _, .cat, n => (detail.rep_str "meow" n).map (· ++ "\n")
  | _, _, .parrot ⟨none⟩, n => (detail.rep_str "...?" n).map (· ++ "\n")
  | 0, _, .parrot ⟨some _⟩, _ => .error .no_fuel
  | fuel + 1, h, .parrot ⟨some a⟩, n =>
    match h[a]? with
    | none => .error .dangling
    | some obj => make_sound_aux fuel h obj n

/-- The virtual call `anm.clone()` with a budget of hops: lines 123 and 131 for a `dog`
and a `cat`, lines 185-193 for a `parrot`, which clones the held instance first and
then allocates the `parrot` that holds the clone. -/
def clone_aux : Nat → Heap → animal → Except Error (Heap × Addr)
  | _, h, .dog => .ok (alloc h .dog)
  | _, h, .cat => .ok (alloc h .cat)
  | _, h, .parrot ⟨none⟩ => .ok (alloc h (.parrot ⟨none⟩))
  | 0, _, .parrot ⟨some _⟩ => .error .no_fuel
  | fuel + 1, h, .parrot ⟨some a⟩ =>
    match h[a]? with
    | none => .error .dangling
    | some obj =>
      match clone_aux fuel h obj with
      | .error e => .error e
      | .ok (h1, b) => .ok (alloc h1 (.parrot ⟨some b⟩))

/-- The virtual call `anm.make_sound(n)` on the object `anm`. -/
def animal.make_sound (h : Heap) (anm : animal) (n : Int) : Except Error String :=
  make_sound_aux h.length h anm n

/-- The virtual call `anm.clone()` on the object `anm`: the heap after it and the
address of the new instance. -/
def animal.clone (h : Heap) (anm : animal) : Except Error (Heap × Addr) :=
  clone_aux h.length h anm

namespace parrot

/-- The default constructor `parrot() noexcept = default` (line 157). -/
def empty : parrot := ⟨none⟩

/-- Embedding of `parrot::mimic` (line 167) with the private constructors it goes
through (lines 143-151): the holder takes over the instance `anm.clone()` returns. -/
def mimic (h : Heap) (anm : animal) : Except Error (Heap × parrot) :=
  match anm.clone h with
  | .error e => .error e
  | .ok (h1, b) => .ok (h1, ⟨some b⟩)

/-- Embedding of the copy constructor (lines 158-161):
`internal_(other.internal_->clone())`, a virtual call through `other.internal_` with
no test for null. -/
def copy (h : Heap) (other : parrot) : Except Error (Heap × parrot) :=
  match other.internal_ with
  | none => .error .null_deref
  | some a =>
    match h[a]? with
    | none => .error .dangling
    | some obj =>
      match obj.clone h with
      | .error e => .error e
      | .ok (h1, b) => .ok (h1, ⟨some b⟩)

/-- Embedding of the defaulted copy assignment `operator=(const parrot&)` (line 169):
`internal_` is assigned, after which the two holders share the instance. -/
def assign (_self other : parrot) : parrot := ⟨other.internal_⟩

/-- Embedding of `parrot::make_sound` (lines 175-183). -/
def make_sound (h : Heap) (self : parrot) (n : Int) : Except Error String :=
  (animal.parrot self).make_sound h n

/-- Embedding of `parrot::clone` (lines 185-193). -/
def clone (h : Heap) (self : parrot) : Except Error (Heap × Addr) :=
  (animal.parrot self).clone h

/-- Embedding of `operator std::shared_ptr<T>` (lines 198-200). -/
def operator_shared_ptr (T : Ty) (h : Heap) (self : parrot) : Option Addr :=
  dynamic_pointer_cast T h self.internal_

end parrot

/-- Copy construction of a `T` from the object a `T&` refers to (`maybe<T>(*ptr)`,
`static_cast<T>(*ptr)`).  A successful cast to a concrete `T` leaves an object of
dynamic type `T`, no class deriving from `dog`, `cat` or `parrot`, so the constructor
is the one of the object's class: the implicit ones of `dog` and `cat`, which have
nothing to copy, and `parrot(const parrot&)`. -/
def copy_construct (h : Heap) : animal → Except Error (Heap × animal)
  | .dog => .ok (h, .dog)
  | .cat => .ok (h, .cat)
  | .parrot p =>
    match p.copy h with
    | .error e => .error e
    | .ok (h1, q) => .ok (h1, .parrot q)

namespace parrot

/-- Embedding of `operator maybe<T>` (lines 202-207):
`ptr ? maybe<T>(*ptr) : maybe<T>(std::nullopt)`. -/
def operator_maybe (T : Concrete) (h : Heap) (self : parrot) :
    Except Error (Heap × maybe animal) :=
  match self.operator_shared_ptr T.toTy h with
  | some a =>
    match h[a]? with
    | none => .error .dangling
    | some obj =>
      match copy_construct h obj with
      | .error e => .error e
      | .ok (h1, v) => .ok (h1, maybe.of_value v)
  | none => .ok (h, maybe.nullopt T.init)

/-- Embedding of `operator T` (lines 209-225): the copy of the pointee, or
`throw std::logic_error("invalid cast")`. -/
def operator_T (T : Concrete) (h : Heap) (self : parrot) : Except Error (Heap × animal) :=
  match self.operator_shared_ptr T.toTy h with
  | some a =>
    match h[a]? with
    | none => .error .dangling
    | some obj => copy_construct h obj
  | none => .error (.logic_error "invalid cast")

end parrot

/-- The chain of held instances that starts at `anm` ends within `k` hops, every
pointer on it being the address of an object.  This is the well-formedness the
recursive calls need in order to return. -/
def grounded : Nat → Heap → animal → Bool
  | _, _, .dog => true
  | _, _, .cat => true
  | _, _, .parrot ⟨none⟩ => true
  | 0, _, .parrot ⟨some _⟩ => false
  | k + 1, h, .parrot ⟨some a⟩ =>
    match h[a]? with
    | none => false
    | some obj => grounded k h obj

/-- The instances reachable from `anm` within `k` hops, each with its address: all the
state an operation on `anm` can read. -/
def chain : Nat → Heap → animal → List (Addr × animal)
  | _, _, .dog => []
  | _, _, .cat => []
  | _, _, .parrot ⟨none⟩ => []
  | 0, _, .parrot ⟨some _⟩ => []
  | k + 1, h, .parrot ⟨some a⟩ =>
    match h[a]? with
    | none => []
    | some obj => (a, obj) :: chain k h obj

namespace detail

/-- The argument of `result.resize` in `rep_str` (line 30): `view.size() * n` as the
`std::size_t` it is computed in. -/
def requested_size (view : String) (n : Int) : Nat :=
  (view.length * (n % 2 ^ 64).toNat) % 2 ^ 64

/-- The plain repetition a reader expects of `rep_str`: `k` concatenated copies of
`s`. -/
def plain_rep (s : String) : Nat → String
  | 0 => ""
  | k + 1 => s ++ plain_rep s k

end detail

namespace maybe

/-- The default constructor `maybe() = default` (line 53): `internal_` is
default-initialised to `dflt`, `has_value_` takes its initialiser `false` (line 102). -/
def init {T : Type} (dflt : T) : maybe T := ⟨dflt, false⟩

/-- The defaulted copy constructor and copy assignment (lines 54 and 72): the two
members are copied.  The copy of a `T` is taken to be an equal `T`, as it is for `dog`
and `cat`. -/
def copy {T : Type} (m : maybe T) : maybe T := ⟨m.internal_, m.has_value_⟩

end maybe

/-! ## Lemmas on the heap and on the chain of held instances -/

theorem lookup_lt {h : Heap} {a : Addr} {obj : animal} (hl : h[a]? = some obj) :
    a < h.length := by
  rcases Nat.lt_or_ge a h.length with h1 | h1
  · exact h1
  · rw [List.getElem?_eq_none h1] at hl
    cases hl

theorem lookup_append {h : Heap} {a : Addr} {obj : animal} (ext : Heap)
    (hl : h[a]? = some obj) : (h ++ ext)[a]? = some obj := by
  rw [List.getElem?_append_left (lookup_lt hl)]
  exact hl

theorem lookup_last (h : Heap) (obj : animal) : (h ++ [obj])[h.length]? = some obj := by
  simp

/-- A grounded chain stays grounded with a larger budget and in a larger heap. -/
theorem grounded_mono (h ext : Heap) : ∀ (k k' : Nat) (obj : animal),
    grounded k h obj = true → k ≤ k' → grounded k' (h ++ ext) obj = true := by
  intro k
  induction k with
  | zero =>
    intro k' obj hg _
    match obj, hg with
    | .dog, _ => simp [grounded]
    | .cat, _ => simp [grounded]
    | .parrot ⟨none⟩, _ => simp [grounded]
    | .parrot ⟨some a⟩, hg => simp [grounded] at hg
  | succ k ih =>
    intro k' obj hg hk
    match obj, hg with
    | .dog, _ => simp [grounded]
    | .cat, _ => simp [grounded]
    | .parrot ⟨none⟩, _ => simp [grounded]
    | .parrot ⟨some a⟩, hg =>
      obtain ⟨k0, rfl⟩ : ∃ k0, k' = k0 + 1 := ⟨k' - 1, by omega⟩
      simp only [grounded] at hg ⊢
      cases hl : h[a]? with
      | none => simp [hl] at hg
      | some o =>
        rw [hl] at hg
        rw [lookup_append ext hl]
        exact ih k0 o hg (by omega)

/-- On a grounded chain the output of `make_sound` depends neither on the budget nor
on later allocations. -/
theorem make_sound_aux_mono (h ext : Heap) (n : Int) : ∀ (k k' : Nat) (obj : animal),
    grounded k h obj = true → k ≤ k' →
    make_sound_aux k' (h ++ ext) obj n = make_sound_aux k h obj n := by
  intro k
  induction k with
  | zero =>
    intro k' obj hg _
    match obj, hg with
    | .dog, _ => simp [make_sound_aux]
    | .cat, _ => simp [make_sound_aux]
    | .parrot ⟨none⟩, _ => simp [make_sound_aux]
    | .parrot ⟨some a⟩, hg => simp [grounded] at hg
  | succ k ih =>
    intro k' obj hg hk
    match obj, hg with
    | .dog, _ => simp [make_sound_aux]
    | .cat, _ => simp [make_sound_aux]
    | .parrot ⟨none⟩, _ => simp [make_sound_aux]
    | .parrot ⟨some a⟩, hg =>
      obtain ⟨k0, rfl⟩ : ∃ k0, k' = k0 + 1 := ⟨k' - 1, by omega⟩
      simp only [grounded] at hg
      simp only [make_sound_aux]
      cases hl : h[a]? with
      | none => simp [hl] at hg
      | some o =>
        rw [hl] at hg
        rw [lookup_append ext hl]
        exact ih k0 o hg (by omega)

/-- On a grounded chain the reachable instances depend neither on the budget nor on
later allocations. -/
theorem chain_mono (h ext : Heap) : ∀ (k k' : Nat) (obj : animal),
    grounded k h obj = true → k ≤ k' →
    chain k' (h ++ ext) obj = chain k h obj := by
  intro k
  induction k with
  | zero =>
    intro k' obj hg _
    match obj, hg with
    | .dog, _ => simp [chain]
    | .cat, _ => simp [chain]
    | .parrot ⟨none⟩, _ => simp [chain]
    | .parrot ⟨some a⟩, hg => simp [grounded] at hg
  | succ k ih =>
    intro k' obj hg hk
    match obj, hg with
    | .dog, _ => simp [chain]
    | .cat, _ => simp [chain]
    | .parrot ⟨none⟩, _ => simp [chain]
    | .parrot ⟨some a⟩, hg =>
      obtain ⟨k0, rfl⟩ : ∃ k0, k' = k0 + 1 := ⟨k' - 1, by omega⟩
      simp only [grounded] at hg
      simp only [chain]
      cases hl : h[a]? with
      | none => simp [hl] at hg
      | some o =>
        rw [hl] at hg
        rw [lookup_append ext hl]
        simp only [List.cons.injEq, true_and]
        exact ih k0 o hg (by omega)

/-- Every entry of a chain is an object of the heap at its address. -/
theorem chain_lookup (h : Heap) : ∀ (k : Nat) (obj : animal) (x : Addr × animal),
    x ∈ chain k h obj → h[x.1]? = some x.2 := by
  intro k
  induction k with
  | zero =>
    intro obj x hx
    match obj, hx with
    | .dog, hx => simp [chain] at hx
    | .cat, hx => simp [chain] at hx
    | .parrot ⟨none⟩, hx => simp [chain] at hx
    | .parrot ⟨some a⟩, hx => simp [chain] at hx
  | succ k ih =>
    intro obj x hx
    match obj, hx with
    | .dog, hx => simp [chain] at hx
    | .cat, hx => simp [chain] at hx
    | .parrot ⟨none⟩, hx => simp [chain] at hx
    | .parrot ⟨some a⟩, hx =>
      simp only [chain] at hx
      cases hl : h[a]? with
      | none => simp [hl] at hx
      | some o =>
        rw [hl] at hx
        rcases List.mem_cons.mp hx with h1 | h1
        · rw [h1]; exact hl
        · exact ih o x h1

/-- A write to an address that is not on the chain leaves the chain as it was. -/
theorem chain_set (h : Heap) (c : Addr) (o : animal) : ∀ (k : Nat) (obj : animal),
    (∀ x ∈ chain k h obj, x.1 ≠ c) → chain k (h.set c o) obj = chain k h obj := by
  intro k
  induction k with
  | zero =>
    intro obj _
    match obj with
    | .dog => simp [chain]
    | .cat => simp [chain]
    | .parrot ⟨none⟩ => simp [chain]
    | .parrot ⟨some a⟩ => simp [chain]
  | succ k ih =>
    intro obj hx
    match obj, hx with
    | .dog, _ => simp [chain]
    | .cat, _ => simp [chain]
    | .parrot ⟨none⟩, _ => simp [chain]
    | .parrot ⟨some a⟩, hx =>
      simp only [chain] at hx ⊢
      cases hl : h[a]? with
      | none =>
        have : (h.set c o)[a]? = none := by
          rw [List.getElem?_eq_none_iff] at hl ⊢
          simpa using hl
        rw [this]
      | some obj1 =>
        rw [hl] at hx
        have hac : c ≠ a := fun e => hx (a, obj1) (List.mem_cons_self _ _) e.symm
        rw [List.getElem?_set_ne hac, hl]
        simp only [List.cons.injEq, true_and]
        exact ih obj1 (fun x hxm => hx x (List.mem_cons_of_mem _ hxm))

/-- What `clone` does on a grounded chain: it returns, it only appends to the heap, the
new instance is the last object allocated, of the class of the original, with the
output of the original, and everything reachable from it is newly allocated. -/
theorem clone_aux_spec (h : Heap) : ∀ (k k' : Nat) (obj : animal),
    grounded k h obj = true → k ≤ k' →
    ∃ (ext : Heap) (obj1 : animal),
      clone_aux k' h obj = .ok (h ++ ext ++ [obj1], (h ++ ext).length) ∧
      obj1.type = obj.type ∧
      (obj1 = .parrot ⟨none⟩ ↔ obj = .parrot ⟨none⟩) ∧
      grounded k (h ++ ext ++ [obj1]) obj1 = true ∧
      (∀ n, make_sound_aux k (h ++ ext ++ [obj1]) obj1 n = make_sound_aux k h obj n) ∧
      (∀ x ∈ chain k (h ++ ext ++ [obj1]) obj1, h.length ≤ x.1) := by
  intro k
  induction k with
  | zero =>
    intro k' obj hg _
    match obj, hg with
    | .dog, _ => exact ⟨[], .dog, by simp [clone_aux, alloc, grounded, make_sound_aux, chain]⟩
    | .cat, _ => exact ⟨[], .cat, by simp [clone_aux, alloc, grounded, make_sound_aux, chain]⟩
    | .parrot ⟨none⟩, _ =>
      exact ⟨[], .parrot ⟨none⟩, by simp [clone_aux, alloc, grounded, make_sound_aux, chain]⟩
    | .parrot ⟨some a⟩, hg => simp [grounded] at hg
  | succ k ih =>
    intro k' obj hg hk
    match obj, hg with
    | .dog, _ => exact ⟨[], .dog, by simp [clone_aux, alloc, grounded, make_sound_aux, chain]⟩
    | .cat, _ => exact ⟨[], .cat, by simp [clone_aux, alloc, grounded, make_sound_aux, chain]⟩
    | .parrot ⟨none⟩, _ =>
      exact ⟨[], .parrot ⟨none⟩, by simp [clone_aux, alloc, grounded, make_sound_aux, chain]⟩
    | .parrot ⟨some a⟩, hg =>
      obtain ⟨k0, rfl⟩ : ∃ k0, k' = k0 + 1 := ⟨k' - 1, by omega⟩
      simp only [grounded] at hg
      cases hl : h[a]? with
      | none => simp [hl] at hg
      | some o =>
        rw [hl] at hg
        obtain ⟨ext0, o1, hc, _, _, hg1, hms, hch⟩ := ih k0 o hg (by omega)
        have e : h ++ (ext0 ++ [o1]) = h ++ ext0 ++ [o1] := by simp
        have hlook : (h ++ ext0 ++ [o1] ++ [animal.parrot ⟨some (h ++ ext0).length⟩])[
            (h ++ ext0).length]? = some o1 :=
          lookup_append _ (lookup_last (h ++ ext0) o1)
        refine ⟨ext0 ++ [o1], .parrot ⟨some (h ++ ext0).length⟩, ?_, rfl, by simp, ?_, ?_, ?_⟩
        · simp only [clone_aux, hl, hc, alloc, e]
        · rw [e]
          simp only [grounded, hlook]
          exact grounded_mono _ _ k k o1 hg1 (Nat.le_refl k)
        · intro n
          rw [e]
          simp only [make_sound_aux, hlook, hl]
          rw [make_sound_aux_mono _ _ n k k o1 hg1 (Nat.le_refl k)]
          exact hms n
        · intro x hx
          rw [e] at hx
          simp only [chain, hlook] at hx
          rcases List.mem_cons.mp hx with h1 | h1
          · rw [h1]
            simp
          · rw [chain_mono _ _ k k o1 hg1 (Nat.le_refl k)] at h1
            exact hch x h1

/-- The virtual call `clone` throws no `std::logic_error`. -/
theorem clone_aux_ne_logic_error (h : Heap) (w : String) : ∀ (k : Nat) (obj : animal),
    clone_aux k h obj ≠ .error (.logic_error w) := by
  intro k
  induction k with
  | zero =>
    intro obj
    match obj with
    | .dog => simp [clone_aux]
    | .cat => simp [clone_aux]
    | .parrot ⟨none⟩ => simp [clone_aux]
    | .parrot ⟨some a⟩ => simp [clone_aux]
  | succ k ih =>
    intro obj
    match obj with
    | .dog => simp [clone_aux]
    | .cat => simp [clone_aux]
    | .parrot ⟨none⟩ => simp [clone_aux]
    | .parrot ⟨some a⟩ =>
      simp only [clone_aux]
      cases hl : h[a]? with
      | none => simp
      | some o =>
        simp only []
        cases hc : clone_aux k h o with
        | error e =>
          simp only []
          intro he
          exact ih o (hc.trans he)
        | ok r => simp

/-- Copy construction throws no `std::logic_error`. -/
theorem copy_construct_ne_logic_error (h : Heap) (w : String) (obj : animal) :
    copy_construct h obj ≠ .error (.logic_error w) := by
  match obj with
  | .dog => simp [copy_construct]
  | .cat => simp [copy_construct]
  | .parrot ⟨none⟩ => simp [copy_construct, parrot.copy]
  | .parrot ⟨some a⟩ =>
    simp only [copy_construct, parrot.copy]
    cases hl : h[a]? with
    | none => simp
    | some o =>
      simp only [animal.clone]
      cases hc : clone_aux h.length h o with
      | error e =>
        simp only []
        intro he
        exact clone_aux_ne_logic_error h w h.length o (hc.trans (by rw [Except.error.inj he]))
      | ok r => simp

/-- A successful pointer cast returns the holder's own pointer, and the pointee is an
object of the heap that is a `T`. -/
theorem dynamic_pointer_cast_some {T : Ty} {h : Heap} {p : Option Addr} {a : Addr}
    (hc : dynamic_pointer_cast T h p = some a) :
    p = some a ∧ ∃ obj, h[a]? = some obj ∧ T.is_base_of obj.type = true := by
  match p, hc with
  | some b, hc =>
    simp only [dynamic_pointer_cast] at hc
    cases hl : h[b]? with
    | none => simp [hl] at hc
    | some obj =>
      rw [hl] at hc
      by_cases hb : T.is_base_of obj.type = true
      · simp only [hb, if_true, Option.some.injEq] at hc
        subst hc
        exact ⟨rfl, obj, hl, hb⟩
      · simp [hb] at hc

/-- An object that is a `T`, for a concrete `T`, has dynamic type `T`. -/
theorem is_base_of_concrete {T D : Concrete} (hb : T.toTy.is_base_of D = true) : D = T := by
  cases T <;> cases D <;> simp [Ty.is_base_of, Concrete.toTy] at hb ⊢

/-- An object whose class is not `parrot` is copied as it is, without a heap effect. -/
theorem copy_construct_variant (h : Heap) {obj : animal} (hv : obj.type ≠ .parrot) :
    copy_construct h obj = .ok (h, obj) := by
  match obj, hv with
  | .dog, _ => rfl
  | .cat, _ => rfl
  | .parrot p, hv => simp [animal.type] at hv

/-- A write to an address that is not on the chain leaves the output of `make_sound`
as it was. -/
theorem make_sound_aux_set (h : Heap) (c : Addr) (o : animal) (n : Int) :
    ∀ (k : Nat) (obj : animal), (∀ x ∈ chain k h obj, x.1 ≠ c) →
    make_sound_aux k (h.set c o) obj n = make_sound_aux k h obj n := by
  intro k
  induction k with
  | zero =>
    intro obj _
    match obj with
    | .dog => simp [make_sound_aux]
    | .cat => simp [make_sound_aux]
    | .parrot ⟨none⟩ => simp [make_sound_aux]
    | .parrot ⟨some a⟩ => simp [make_sound_aux]
  | succ k ih =>
    intro obj hx
    match obj, hx with
    | .dog, _ => simp [make_sound_aux]
    | .cat, _ => simp [make_sound_aux]
    | .parrot ⟨none⟩, _ => simp [make_sound_aux]
    | .parrot ⟨some a⟩, hx =>
      simp only [chain] at hx
      simp only [make_sound_aux]
      cases hl : h[a]? with
      | none =>
        have : (h.set c o)[a]? = none := by
          rw [List.getElem?_eq_none_iff] at hl ⊢
          simpa using hl
        rw [this]
      | some obj1 =>
        rw [hl] at hx
        have hac : c ≠ a := fun e => hx (a, obj1) (List.mem_cons_self _ _) e.symm
        rw [List.getElem?_set_ne hac, hl]
        exact ih obj1 (fun x hxm => hx x (List.mem_cons_of_mem _ hxm))

/-- The budget does not matter on a grounded chain: `grounded`. -/
theorem grounded_fuel (h : Heap) (k k1 : Nat) (obj : animal)
    (hg : grounded k h obj = true) (hk : k ≤ k1) : grounded k1 h obj = true := by
  have := grounded_mono h [] k k1 obj hg hk
  rwa [List.append_nil] at this

/-- The budget does not matter on a grounded chain: `make_sound`. -/
theorem make_sound_aux_fuel (h : Heap) (n : Int) (k k1 : Nat) (obj : animal)
    (hg : grounded k h obj = true) (hk : k ≤ k1) :
    make_sound_aux k1 h obj n = make_sound_aux k h obj n := by
  have := make_sound_aux_mono h [] n k k1 obj hg hk
  rwa [List.append_nil] at this

/-- The budget does not matter on a grounded chain: `chain`. -/
theorem chain_fuel (h : Heap) (k k1 : Nat) (obj : animal)
    (hg : grounded k h obj = true) (hk : k ≤ k1) : chain k1 h obj = chain k h obj := by
  have := chain_mono h [] k k1 obj hg hk
  rwa [List.append_nil] at this

/-- On a chain that ends after exactly `k` hops the `k` addresses are distinct: the
object at each of them is grounded with a smaller budget than the object before. -/
theorem exact_chain_addrs (h : Heap) : ∀ (k : Nat) (obj : animal),
    grounded k h obj = true → (∀ j, j < k → grounded j h obj = false) →
    ∃ l : List Addr, l.length = k ∧ l.Nodup ∧
      ∀ a ∈ l, ∃ o, h[a]? = some o ∧ grounded (k - 1) h o = true := by
  intro k
  induction k with
  | zero =>
    intro obj _ _
    exact ⟨[], rfl, List.nodup_nil, fun a ha => by simp at ha⟩
  | succ k ih =>
    intro obj hg hmin
    match obj, hg, hmin with
    | .dog, _, hmin => simpa [grounded] using hmin 0 (Nat.succ_pos k)
    | .cat, _, hmin => simpa [grounded] using hmin 0 (Nat.succ_pos k)
    | .parrot ⟨none⟩, _, hmin => simpa [grounded] using hmin 0 (Nat.succ_pos k)
    | .parrot ⟨some a⟩, hg, hmin =>
      simp only [grounded] at hg
      cases hl : h[a]? with
      | none => simp [hl] at hg
      | some o =>
        rw [hl] at hg
        have hmin1 : ∀ j, j < k → grounded j h o = false := by
          intro j hj
          have := hmin (j + 1) (by omega)
          simpa only [grounded, hl] using this
        obtain ⟨l, hlen, hnd, hel⟩ := ih o hg hmin1
        refine ⟨a :: l, by simp [hlen], List.nodup_cons.mpr ⟨?_, hnd⟩, ?_⟩
        · intro ha
          obtain ⟨o1, ho1, hg1⟩ := hel a ha
          have hk : 0 < k := by
            rw [← hlen]
            exact List.length_pos_of_mem ha
          rw [hl] at ho1
          cases ho1
          have := hmin1 (k - 1) (by omega)
          rw [this] at hg1
          cases hg1
        · intro b hb
          rcases List.mem_cons.mp hb with e | e
          · subst e
            exact ⟨o, hl, hg⟩
          · obtain ⟨o1, ho1, hg1⟩ := hel b e
            exact ⟨o1, ho1, grounded_fuel h (k - 1) k o1 hg1 (Nat.sub_le k 1)⟩

/-- The budget of the public functions is enough: a chain that ends at all ends within
`h.length` hops, a heap of `h.length` objects having no more distinct addresses. -/
theorem grounded_length (h : Heap) (k : Nat) (obj : animal)
    (hg : grounded k h obj = true) : grounded h.length h obj = true := by
  have hex : ∃ d, grounded d h obj = true := ⟨k, hg⟩
  obtain ⟨l, hlen, hnd, hel⟩ := exact_chain_addrs h (Nat.find hex) obj (Nat.find_spec hex)
    (fun j hj => by simpa using Nat.find_min hex hj)
  have hsub : l ⊆ List.range h.length := by
    intro a ha
    obtain ⟨o, ho, _⟩ := hel a ha
    exact List.mem_range.mpr (lookup_lt ho)
  have hle : l.length ≤ h.length := by
    have := (List.subperm_of_subset hnd hsub).length_le
    simpa using this
  exact grounded_fuel h _ _ obj (Nat.find_spec hex) (by omega)

/-- The output of a holder whose instance heads a grounded chain is the output of the
instance. -/
theorem make_sound_holder (h : Heap) (a : Addr) (obj : animal) (k : Nat) (n : Int)
    (hl : h[a]? = some obj) (hg : grounded k h obj = true) (hk : k < h.length) :
    parrot.make_sound h ⟨some a⟩ n = make_sound_aux k h obj n := by
  obtain ⟨m, hm⟩ : ∃ m, h.length = m + 1 := ⟨h.length - 1, by omega⟩
  simp only [parrot.make_sound, animal.make_sound, hm, make_sound_aux, hl]
  exact make_sound_aux_fuel h n k m obj hg (by omega)

/-- The chain of a holder whose instance heads a grounded chain is the instance and
its chain. -/
theorem chain_holder (h : Heap) (a : Addr) (obj : animal) (k : Nat)
    (hl : h[a]? = some obj) (hg : grounded k h obj = true) (hk : k < h.length) :
    chain h.length h (.parrot ⟨some a⟩) = (a, obj) :: chain k h obj := by
  obtain ⟨m, hm⟩ : ∃ m, h.length = m + 1 := ⟨h.length - 1, by omega⟩
  simp only [hm, chain, hl, List.cons.injEq, true_and]
  exact chain_fuel h k m obj hg (by omega)

/-- What the copy constructor does on a holder whose chain is grounded: it returns a
holder of the clone of the held instance, `clone_aux_spec` telling what the clone is. -/
theorem copy_spec (h : Heap) (a : Addr)
    (hg : grounded h.length h (.parrot ⟨some a⟩) = true) :
    ∃ (k : Nat) (obj : animal) (ext : Heap) (obj1 : animal),
      k < h.length ∧ h[a]? = some obj ∧ grounded k h obj = true ∧
      parrot.copy h ⟨some a⟩ = .ok (h ++ ext ++ [obj1], ⟨some (h ++ ext).length⟩) ∧
      obj1.type = obj.type ∧
      (obj1 = .parrot ⟨none⟩ ↔ obj = .parrot ⟨none⟩) ∧
      grounded k (h ++ ext ++ [obj1]) obj1 = true ∧
      (∀ n, make_sound_aux k (h ++ ext ++ [obj1]) obj1 n = make_sound_aux k h obj n) ∧
      (∀ x ∈ chain k (h ++ ext ++ [obj1]) obj1, h.length ≤ x.1) := by
  cases hk : h.length with
  | zero =>
    rw [hk] at hg
    simp [grounded] at hg
  | succ k =>
    rw [hk] at hg
    simp only [grounded] at hg
    cases hl : h[a]? with
    | none => simp [hl] at hg
    | some obj =>
      rw [hl] at hg
      obtain ⟨ext, obj1, hc, ht, he, hg1, hms, hch⟩ :=
        clone_aux_spec h k (k + 1) obj hg (Nat.le_succ k)
      refine ⟨k, obj, ext, obj1, Nat.lt_succ_self k, rfl, hg, ?_, ht, he, hg1, hms, ?_⟩
      · simp only [parrot.copy, hl, animal.clone, hk, hc]
      · intro x hx
        have := hch x hx
        omega

/-! ## The three casts -/

/-- C1: for every holder `H` and every variant type `T` (`dog` or `cat`), the value
cast `operator T` returns a copy of the held instance, leaving the heap as it was, when
the shared-pointer cast of `H` to `T` is non-null; and for every `T` it fails with
`std::logic_error("invalid cast")` exactly when the shared-pointer cast is null. -/
theorem value_cast_copy_or_invalid_cast (h : Heap) (H : parrot) (T : Concrete) :
    (H.operator_shared_ptr T.toTy h = none ↔
      H.operator_T T h = .error (.logic_error "invalid cast")) ∧
    (T ≠ .parrot → ∀ a, H.operator_shared_ptr T.toTy h = some a →
      ∃ obj, h[a]? = some obj ∧ obj.type = T ∧ H.operator_T T h = .ok (h, obj)) := by
  constructor
  · constructor
    · intro hn
      simp only [parrot.operator_T, hn]
    · intro he
      cases hc : H.operator_shared_ptr T.toTy h with
      | none => rfl
      | some a =>
        exfalso
        obtain ⟨_, obj, hl, _⟩ := dynamic_pointer_cast_some hc
        simp only [parrot.operator_T, hc, hl] at he
        exact copy_construct_ne_logic_error h _ obj he
  · intro hT a hc
    obtain ⟨_, obj, hl, hb⟩ := dynamic_pointer_cast_some hc
    have ht : obj.type = T := is_base_of_concrete hb
    refine ⟨obj, hl, ht, ?_⟩
    simp only [parrot.operator_T, hc, hl]
    exact copy_construct_variant h (by rw [ht]; exact hT)

/-- The value cast to `dog` of a holder of a `dog` returns a `dog`. -/
theorem value_cast_copy_or_invalid_cast_witness :
    Concrete.dog ≠ .parrot ∧
    parrot.operator_shared_ptr Concrete.dog.toTy [.dog] ⟨some 0⟩ = some 0 ∧
    ∃ obj, [animal.dog][0]? = some obj ∧ obj.type = .dog ∧
      parrot.operator_T .dog [.dog] ⟨some 0⟩ = .ok ([.dog], obj) :=
  ⟨by decide, by decide,
    (value_cast_copy_or_invalid_cast [.dog] ⟨some 0⟩ .dog).2 (by decide) 0 (by decide)⟩

/-- C2: for every variant value `v` (a `dog` or a `cat`) and `H = parrot::mimic(v)`,
the shared-pointer cast of `H` to the type of `v` is non-null, its pointee is an object
equal to `v`, and for every `n` the pointee's `make_sound(n)` produces the output of
`v.make_sound(n)`. -/
theorem mimic_cast_to_own_type (h : Heap) (v : animal) (hv : v.type ≠ .parrot) :
    ∃ h1 H a, parrot.mimic h v = .ok (h1, H) ∧
      H.operator_shared_ptr v.type.toTy h1 = some a ∧
      ∃ obj, h1[a]? = some obj ∧ obj = v ∧
        ∀ n, obj.make_sound h1 n = v.make_sound h n := by
  match v, hv with
  | .dog, _ =>
    refine ⟨h ++ [animal.dog], ⟨some h.length⟩, h.length, ?_, ?_, .dog, by simp, rfl, ?_⟩
    · simp [parrot.mimic, animal.clone, clone_aux, alloc]
    · simp [parrot.operator_shared_ptr, dynamic_pointer_cast, animal.type, Ty.is_base_of]
    · intro n
      simp [animal.make_sound, make_sound_aux]
  | .cat, _ =>
    refine ⟨h ++ [animal.cat], ⟨some h.length⟩, h.length, ?_, ?_, .cat, by simp, rfl, ?_⟩
    · simp [parrot.mimic, animal.clone, clone_aux, alloc]
    · simp [parrot.operator_shared_ptr, dynamic_pointer_cast, animal.type, Ty.is_base_of]
    · intro n
      simp [animal.make_sound, make_sound_aux]
  | .parrot p, hv => simp [animal.type] at hv

/-- The holder `mimic(dog)` built in the empty heap casts to a non-null
`shared_ptr<dog>`. -/
theorem mimic_cast_to_own_type_witness :
    animal.type .dog ≠ .parrot ∧
    ∃ h1 H a, parrot.mimic [] .dog = .ok (h1, H) ∧
      H.operator_shared_ptr (animal.type .dog).toTy h1 = some a ∧
      ∃ obj, h1[a]? = some obj ∧ obj = .dog ∧
        ∀ n, obj.make_sound h1 n = animal.make_sound [] .dog n :=
  ⟨by decide, mimic_cast_to_own_type [] .dog (by decide)⟩

/-- C3, as stated, fails: `animal` is a type different from `dog`, and the
shared-pointer cast of `mimic(dog)` to `animal` is non-null. -/
theorem mimic_dog_cast_to_animal_not_null :
    animal.type .dog ≠ .parrot ∧ Ty.animal ≠ (animal.type .dog).toTy ∧
    parrot.mimic [] .dog = .ok ([.dog], ⟨some 0⟩) ∧
    parrot.operator_shared_ptr .animal [.dog] ⟨some 0⟩ = some 0 := by
  decide

/-- C3, amended: for every variant value `v` (a `dog` or a `cat`) and
`H = parrot::mimic(v)`, the shared-pointer cast of `H` to a type other than the type of
`v` is null unless that type is the base class `animal`, for which the cast returns the
holder's pointer. -/
theorem mimic_cast_to_other_type (h : Heap) (v : animal) (T : Ty) (hv : v.type ≠ .parrot)
    (hT : T ≠ v.type.toTy) :
    ∃ h1 H a, parrot.mimic h v = .ok (h1, H) ∧ H.internal_ = some a ∧
      H.operator_shared_ptr T h1 = if T = .animal then some a else none := by
  match v, hv, hT with
  | .dog, _, hT =>
    refine ⟨h ++ [animal.dog], ⟨some h.length⟩, h.length, ?_, rfl, ?_⟩
    · simp [parrot.mimic, animal.clone, clone_aux, alloc]
    cases T <;>
      simp [parrot.operator_shared_ptr, dynamic_pointer_cast, animal.type, Ty.is_base_of,
        Concrete.toTy] at hT ⊢
  | .cat, _, hT =>
    refine ⟨h ++ [animal.cat], ⟨some h.length⟩, h.length, ?_, rfl, ?_⟩
    · simp [parrot.mimic, animal.clone, clone_aux, alloc]
    cases T <;>
      simp [parrot.operator_shared_ptr, dynamic_pointer_cast, animal.type, Ty.is_base_of,
        Concrete.toTy] at hT ⊢
  | .parrot p, hv, _ => simp [animal.type] at hv

/-- The shared-pointer cast of `mimic(dog)` to `cat` is null. -/
theorem mimic_cast_to_other_type_witness :
    animal.type .dog ≠ .parrot ∧ Ty.cat ≠ (animal.type .dog).toTy ∧
    ∃ h1 H a, parrot.mimic [] .dog = .ok (h1, H) ∧ H.internal_ = some a ∧
      H.operator_shared_ptr .cat h1 = if Ty.cat = .animal then some a else none :=
  ⟨by decide, by decide, mimic_cast_to_other_type [] .dog .cat (by decide) (by decide)⟩

/-- C4: for every holder `H` and every variant type `T` (`dog` or `cat`), the optional
cast `operator maybe<T>` returns: a present `maybe` whose value is a copy of the
pointee when the shared-pointer cast of `H` to `T` is non-null, an absent `maybe` when
it is null; the heap is as it was. -/
theorem optional_cast_never_fails (h : Heap) (H : parrot) (T : Concrete)
    (hT : T ≠ .parrot) :
    (∃ r, H.operator_maybe T h = .ok r) ∧
    (∀ a, H.operator_shared_ptr T.toTy h = some a →
      ∃ obj m, h[a]? = some obj ∧ H.operator_maybe T h = .ok (h, m) ∧
        m.has_value = true ∧ m.value = .ok obj) ∧
    (H.operator_shared_ptr T.toTy h = none →
      ∃ m, H.operator_maybe T h = .ok (h, m) ∧ m.has_value = false) := by
  have hsome : ∀ a, H.operator_shared_ptr T.toTy h = some a →
      ∃ obj m, h[a]? = some obj ∧ H.operator_maybe T h = .ok (h, m) ∧
        m.has_value = true ∧ m.value = .ok obj := by
    intro a hc
    obtain ⟨_, obj, hl, hb⟩ := dynamic_pointer_cast_some hc
    have ht : obj.type = T := is_base_of_concrete hb
    have hcc : copy_construct h obj = .ok (h, obj) :=
      copy_construct_variant h (by rw [ht]; exact hT)
    refine ⟨obj, maybe.of_value obj, hl, ?_, rfl, rfl⟩
    simp only [parrot.operator_maybe, hc, hl, hcc]
  have hnone : H.operator_shared_ptr T.toTy h = none →
      ∃ m, H.operator_maybe T h = .ok (h, m) ∧ m.has_value = false := by
    intro hc
    refine ⟨maybe.nullopt T.init, ?_, rfl⟩
    simp only [parrot.operator_maybe, hc]
  refine ⟨?_, hsome, hnone⟩
  cases hc : H.operator_shared_ptr T.toTy h with
  | none =>
    obtain ⟨m, hm, _⟩ := hnone hc
    exact ⟨_, hm⟩
  | some a =>
    obtain ⟨_, m, _, hm, _⟩ := hsome a hc
    exact ⟨_, hm⟩

/-- The optional cast to `cat` of a holder of a `dog` returns an absent `maybe`, the one
to `dog` a present one. -/
theorem optional_cast_never_fails_witness :
    Concrete.cat ≠ .parrot ∧
    (∃ r, parrot.operator_maybe .cat [.dog] ⟨some 0⟩ = .ok r) ∧
    (∀ a, parrot.operator_shared_ptr Concrete.cat.toTy [.dog] ⟨some 0⟩ = some a →
      ∃ obj m, [animal.dog][a]? = some obj ∧
        parrot.operator_maybe .cat [.dog] ⟨some 0⟩ = .ok ([.dog], m) ∧
        m.has_value = true ∧ m.value = .ok obj) ∧
    (parrot.operator_shared_ptr Concrete.cat.toTy [.dog] ⟨some 0⟩ = none →
      ∃ m, parrot.operator_maybe .cat [.dog] ⟨some 0⟩ = .ok ([.dog], m) ∧
        m.has_value = false) :=
  ⟨by decide, optional_cast_never_fails [.dog] ⟨some 0⟩ .cat (by decide)⟩

/-- C5: for every holder `H`, empty or not, and every concrete type `T`, the optional
cast returns a `maybe` that has a value if and only if the value cast returns; and
whenever the optional cast returns, its `maybe` has a value if and only if the value
cast throws no `std::logic_error`. -/
theorem optional_and_value_cast_agree (h : Heap) (H : parrot) (T : Concrete) :
    ((∃ h1 m, H.operator_maybe T h = .ok (h1, m) ∧ m.has_value = true) ↔
      (∃ r, H.operator_T T h = .ok r)) ∧
    (∀ h1 m, H.operator_maybe T h = .ok (h1, m) →
      (m.has_value = true ↔ ∀ w, H.operator_T T h ≠ .error (.logic_error w))) := by
  cases hc : H.operator_shared_ptr T.toTy h with
  | none =>
    simp only [parrot.operator_maybe, parrot.operator_T, hc]
    constructor
    · constructor
      · rintro ⟨h1, m, hm, hv⟩
        cases hm
        cases hv
      · rintro ⟨r, hr⟩
        cases hr
    · intro h1 m hm
      cases hm
      constructor
      · intro hv
        cases hv
      · intro hw
        exact absurd rfl (hw "invalid cast")
  | some a =>
    obtain ⟨_, obj, hl, _⟩ := dynamic_pointer_cast_some hc
    simp only [parrot.operator_maybe, parrot.operator_T, hc, hl]
    cases hcc : copy_construct h obj with
    | error e =>
      simp only []
      constructor
      · constructor
        · rintro ⟨h1, m, hm, _⟩
          cases hm
        · rintro ⟨r, hr⟩
          cases hr
      · intro h1 m hm
        cases hm
    | ok r =>
      obtain ⟨h2, v⟩ := r
      simp only []
      constructor
      · constructor
        · intro _
          exact ⟨_, rfl⟩
        · intro _
          exact ⟨h2, maybe.of_value v, rfl, rfl⟩
      · intro h1 m hm
        cases hm
        constructor
        · intro _ w hw
          cases hw
        · intro _
          rfl

/-- On a holder of a `dog` the optional cast to `cat` returns an absent `maybe` and the
value cast to `cat` throws. -/
theorem optional_and_value_cast_agree_witness :
    parrot.operator_maybe .cat [.dog] ⟨some 0⟩ = .ok ([.dog], maybe.nullopt .cat) ∧
    ((maybe.nullopt animal.cat).has_value = true ↔
      ∀ w, parrot.operator_T .cat [.dog] ⟨some 0⟩ ≠ .error (.logic_error w)) :=
  ⟨by decide,
    (optional_and_value_cast_agree [.dog] ⟨some 0⟩ .cat).2 [.dog] (maybe.nullopt .cat)
      (by decide)⟩

/-- C6, as stated, fails: the value cast of the default-constructed holder to `dog`
does not return, it throws `std::logic_error("invalid cast")`. -/
theorem empty_holder_value_cast_throws :
    parrot.operator_T .dog [] parrot.empty = .error (.logic_error "invalid cast") ∧
    ¬ ∃ r, parrot.operator_T .dog [] parrot.empty = .ok r := by
  constructor
  · decide
  · rintro ⟨r, hr⟩
    cases hr

/-- C6, amended: for the default-constructed holder, in every heap, the shared-pointer
cast to every type is null and the optional cast to every concrete type returns an
absent `maybe`, neither failing, while the value cast to every concrete type throws
`std::logic_error("invalid cast")`. -/
theorem empty_holder_casts (h : Heap) :
    (∀ T : Ty, parrot.operator_shared_ptr T h parrot.empty = none) ∧
    (∀ T : Concrete, ∃ m, parrot.operator_maybe T h parrot.empty = .ok (h, m) ∧
      m.has_value = false) ∧
    (∀ T : Concrete,
      parrot.operator_T T h parrot.empty = .error (.logic_error "invalid cast")) :=
  ⟨fun _ => rfl, fun T => ⟨maybe.nullopt T.init, rfl, rfl⟩, fun _ => rfl⟩

/-! ## Copy construction -/

/-- C7 fails on the code: copy construction from the default-constructed holder calls
`clone` through the null `internal_`, which is undefined behaviour, in every heap;
`parrot::clone` on the same holder tests `internal_` and returns a new empty `parrot`. -/
theorem copy_of_empty_holder_null_deref (h : Heap) :
    parrot.copy h parrot.empty = .error .null_deref ∧
    (¬ ∃ r, parrot.copy h parrot.empty = .ok r) ∧
    parrot.clone h parrot.empty = .ok (h ++ [.parrot ⟨none⟩], h.length) := by
  refine ⟨rfl, ?_, ?_⟩
  · rintro ⟨r, hr⟩
    cases hr
  · simp [parrot.clone, animal.clone, clone_aux, alloc, parrot.empty]

/-- C8: for every non-empty holder `H1` whose chain of held instances ends, the copy
constructor returns a non-empty holder `H2` of an instance of the same class with
the same behaviour: for every type `T` the shared-pointer cast of `H2` to `T` is
non-null exactly when that of `H1` is, and for every `n` `H2.make_sound(n)` produces
the output of `H1.make_sound(n)`. -/
theorem copy_same_type_same_sound (h : Heap) (H1 : parrot) (hne : H1.internal_ ≠ none)
    (hg : ∃ k, grounded k h (.parrot H1) = true) :
    ∃ h1 H2, parrot.copy h H1 = .ok (h1, H2) ∧ H2.internal_ ≠ none ∧
      (∀ T : Ty, (H2.operator_shared_ptr T h1).isSome = (H1.operator_shared_ptr T h).isSome) ∧
      (∀ n, H2.make_sound h1 n = H1.make_sound h n) := by
  obtain ⟨k0, hg0⟩ := hg
  have hg := grounded_length h k0 (.parrot H1) hg0
  obtain ⟨i⟩ := H1
  match i, hne, hg with
  | some a, _, hg =>
    obtain ⟨k, obj, ext, obj1, hk, hl, hgo, hc, ht, _, hg1, hms, _⟩ := copy_spec h a hg
    have hl1 : (h ++ ext ++ [obj1])[(h ++ ext).length]? = some obj1 := lookup_last _ _
    refine ⟨h ++ ext ++ [obj1], ⟨some (h ++ ext).length⟩, hc, by simp, ?_, ?_⟩
    · intro T
      simp only [parrot.operator_shared_ptr, dynamic_pointer_cast, hl1, hl, ht]
      split <;> rfl
    · intro n
      rw [make_sound_holder _ _ obj1 k n hl1 hg1 (by simp; omega),
        make_sound_holder h a obj k n hl hgo hk]
      exact hms n

/-- The copy of the holder of a `parrot` that holds a `dog`. -/
theorem copy_same_type_same_sound_witness :
    (⟨some 1⟩ : parrot).internal_ ≠ none ∧
    (∃ k, grounded k [.dog, .parrot ⟨some 0⟩] (.parrot ⟨some 1⟩) = true) ∧
    ∃ h1 H2, parrot.copy [.dog, .parrot ⟨some 0⟩] ⟨some 1⟩ = .ok (h1, H2) ∧
      H2.internal_ ≠ none ∧
      (∀ T : Ty, (H2.operator_shared_ptr T h1).isSome =
        (parrot.operator_shared_ptr T [.dog, .parrot ⟨some 0⟩] ⟨some 1⟩).isSome) ∧
      (∀ n, H2.make_sound h1 n = parrot.make_sound [.dog, .parrot ⟨some 0⟩] ⟨some 1⟩ n) :=
  ⟨by decide, ⟨2, by decide⟩,
    copy_same_type_same_sound [.dog, .parrot ⟨some 0⟩] ⟨some 1⟩ (by decide) ⟨2, by decide⟩⟩

/-- C9: for every non-empty holder `H1` whose chain of held instances ends and `H2`
its copy, the instance of `H2` has another address than the instance of `H1`;
every instance reachable from `H1` was in the heap before the copy and every instance
reachable from `H2` was allocated by the copy; so a write to an object that was in the
heap before the copy leaves the instances reachable from `H2` and the output of `H2`
unchanged, and a write to an object allocated by the copy leaves those of `H1`
unchanged. -/
theorem copy_is_deep (h : Heap) (H1 : parrot) (hne : H1.internal_ ≠ none)
    (hg : ∃ k, grounded k h (.parrot H1) = true) :
    ∃ h1 H2 a b, parrot.copy h H1 = .ok (h1, H2) ∧
      H1.internal_ = some a ∧ H2.internal_ = some b ∧ a ≠ b ∧
      a < h.length ∧ h.length ≤ b ∧ b < h1.length ∧
      (∀ x ∈ chain h1.length h1 (.parrot H1), x.1 < h.length) ∧
      (∀ x ∈ chain h1.length h1 (.parrot H2), h.length ≤ x.1) ∧
      (∀ c o, c < h.length →
        chain h1.length (h1.set c o) (.parrot H2) = chain h1.length h1 (.parrot H2) ∧
        ∀ n, H2.make_sound (h1.set c o) n = H2.make_sound h1 n) ∧
      (∀ c o, h.length ≤ c →
        chain h1.length (h1.set c o) (.parrot H1) = chain h1.length h1 (.parrot H1) ∧
        ∀ n, H1.make_sound (h1.set c o) n = H1.make_sound h1 n) := by
  obtain ⟨k0, hg0⟩ := hg
  have hg := grounded_length h k0 (.parrot H1) hg0
  obtain ⟨i⟩ := H1
  match i, hne, hg with
  | some a, _, hg =>
    obtain ⟨k, obj, ext, obj1, hk, hl, hgo, hc, _, _, hg1, _, hch⟩ := copy_spec h a hg
    have hl1 : (h ++ ext ++ [obj1])[(h ++ ext).length]? = some obj1 := lookup_last _ _
    have ha : a < h.length := lookup_lt hl
    have hlen : h.length < (h ++ ext ++ [obj1]).length := by
      simp only [List.length_append, List.length_singleton]
      omega
    have hb : h.length ≤ (h ++ ext).length := by simp
    -- the chain of `H1` is the one it had before the copy, inside the old heap
    have hold : ∀ x ∈ chain (h ++ ext ++ [obj1]).length (h ++ ext ++ [obj1])
        (.parrot ⟨some a⟩), x.1 < h.length := by
      intro x hx
      rw [List.append_assoc,
        chain_mono h (ext ++ [obj1]) h.length _ (.parrot ⟨some a⟩) hg
          (by rw [← List.append_assoc]; omega)] at hx
      exact lookup_lt (chain_lookup h _ _ x hx)
    -- the chain of `H2` is made of objects the copy allocated
    have hnew : ∀ x ∈ chain (h ++ ext ++ [obj1]).length (h ++ ext ++ [obj1])
        (.parrot ⟨some (h ++ ext).length⟩), h.length ≤ x.1 := by
      intro x hx
      rw [chain_holder _ _ obj1 k hl1 hg1 (by omega)] at hx
      rcases List.mem_cons.mp hx with e | e
      · rw [e]
        exact hb
      · exact hch x e
    refine ⟨h ++ ext ++ [obj1], ⟨some (h ++ ext).length⟩, a, (h ++ ext).length, hc, rfl, rfl,
      Nat.ne_of_lt (Nat.lt_of_lt_of_le ha hb), ha, hb, by simp, hold, hnew, ?_, ?_⟩
    · intro c o hc1
      have hne1 : ∀ x ∈ chain (h ++ ext ++ [obj1]).length (h ++ ext ++ [obj1])
          (.parrot ⟨some (h ++ ext).length⟩), x.1 ≠ c := by
        intro x hx
        exact Nat.ne_of_gt (Nat.lt_of_lt_of_le hc1 (hnew x hx))
      refine ⟨chain_set _ c o _ _ hne1, fun n => ?_⟩
      simp only [parrot.make_sound, animal.make_sound, List.length_set]
      exact make_sound_aux_set _ c o n _ _ hne1
    · intro c o hc1
      have hne1 : ∀ x ∈ chain (h ++ ext ++ [obj1]).length (h ++ ext ++ [obj1])
          (.parrot ⟨some a⟩), x.1 ≠ c := by
        intro x hx
        exact Nat.ne_of_lt (Nat.lt_of_lt_of_le (hold x hx) hc1)
      refine ⟨chain_set _ c o _ _ hne1, fun n => ?_⟩
      simp only [parrot.make_sound, animal.make_sound, List.length_set]
      exact make_sound_aux_set _ c o n _ _ hne1

/-- The copy of the holder of a `parrot` that holds a `dog`: the two new objects are at
the addresses 2 and 3. -/
theorem copy_is_deep_witness :
    (⟨some 1⟩ : parrot).internal_ ≠ none ∧
    (∃ k, grounded k [.dog, .parrot ⟨some 0⟩] (.parrot ⟨some 1⟩) = true) ∧
    ∃ h1 H2 a b, parrot.copy [.dog, .parrot ⟨some 0⟩] ⟨some 1⟩ = .ok (h1, H2) ∧
      (⟨some 1⟩ : parrot).internal_ = some a ∧ H2.internal_ = some b ∧ a ≠ b ∧
      a < [animal.dog, .parrot ⟨some 0⟩].length ∧
      [animal.dog, .parrot ⟨some 0⟩].length ≤ b ∧ b < h1.length ∧
      (∀ x ∈ chain h1.length h1 (.parrot ⟨some 1⟩),
        x.1 < [animal.dog, .parrot ⟨some 0⟩].length) ∧
      (∀ x ∈ chain h1.length h1 (.parrot H2),
        [animal.dog, .parrot ⟨some 0⟩].length ≤ x.1) ∧
      (∀ c o, c < [animal.dog, .parrot ⟨some 0⟩].length →
        chain h1.length (h1.set c o) (.parrot H2) = chain h1.length h1 (.parrot H2) ∧
        ∀ n, H2.make_sound (h1.set c o) n = H2.make_sound h1 n) ∧
      (∀ c o, [animal.dog, .parrot ⟨some 0⟩].length ≤ c →
        chain h1.length (h1.set c o) (.parrot ⟨some 1⟩) =
          chain h1.length h1 (.parrot ⟨some 1⟩) ∧
        ∀ n, parrot.make_sound (h1.set c o) ⟨some 1⟩ n = parrot.make_sound h1 ⟨some 1⟩ n) :=
  ⟨by decide, ⟨2, by decide⟩,
    copy_is_deep [.dog, .parrot ⟨some 0⟩] ⟨some 1⟩ (by decide) ⟨2, by decide⟩⟩

/-! ## The output of `make_sound` -/

/-- C10 fails on the code: `dog.make_sound(1)` writes four `'\0'` chars before `woof`,
`cat.make_sound(1)` four before `meow`, and `mimic(dog).make_sound(2)` eight before
`woofwoof`, because `rep_str` resizes `result` where it means to reserve; none of the
three outputs is the plain repetition. -/
theorem make_sound_writes_nul_prefix :
    animal.make_sound [] .dog 1
      = .ok (String.mk (List.replicate 4 detail.NUL) ++ "woof\n") ∧
    animal.make_sound [] .dog 1 ≠ .ok "woof\n" ∧
    animal.make_sound [] .cat 1
      = .ok (String.mk (List.replicate 4 detail.NUL) ++ "meow\n") ∧
    animal.make_sound [] .cat 1 ≠ .ok "meow\n" ∧
    parrot.mimic [] .dog = .ok ([.dog], ⟨some 0⟩) ∧
    parrot.make_sound [.dog] ⟨some 0⟩ 2
      = .ok (String.mk (List.replicate 8 detail.NUL) ++ "woofwoof\n") ∧
    parrot.make_sound [.dog] ⟨some 0⟩ 2 ≠ .ok "woofwoof\n" := by
  decide

/-- C11 fails on the code: `make_sound(1)` on the default-constructed holder returns,
but writes four `'\0'` chars before `...?`, and `make_sound(2)` eight before
`...?...?`, because `rep_str` resizes `result` where it means to reserve; only
`make_sound(0)` writes the plain repetition. -/
theorem empty_holder_make_sound_writes_nul_prefix :
    parrot.make_sound [] parrot.empty 1
      = .ok (String.mk (List.replicate 4 detail.NUL) ++ "...?\n") ∧
    parrot.make_sound [] parrot.empty 1 ≠ .ok "...?\n" ∧
    parrot.make_sound [] parrot.empty 2
      = .ok (String.mk (List.replicate 8 detail.NUL) ++ "...?...?\n") ∧
    parrot.make_sound [] parrot.empty 2 ≠ .ok "...?...?\n" ∧
    parrot.make_sound [] parrot.empty 0 = .ok "\n" := by
  decide

/-- C12: for every capability value `v`, a `dog`, a `cat` or a holder, empty or not,
whose chain of held instances ends, `parrot::mimic(v)` returns a holder `H`, and for
every `n` `H.make_sound(n)` produces exactly the result of `v.make_sound(n)`. -/
theorem mimic_make_sound_transparent (h : Heap) (v : animal)
    (hg : ∃ k, grounded k h v = true) :
    ∃ h1 H, parrot.mimic h v = .ok (h1, H) ∧
      ∀ n, H.make_sound h1 n = v.make_sound h n := by
  obtain ⟨k0, hg0⟩ := hg
  have hg := grounded_length h k0 v hg0
  obtain ⟨ext, obj1, hc, _, _, hg1, hms, _⟩ :=
    clone_aux_spec h h.length h.length v hg (Nat.le_refl _)
  refine ⟨h ++ ext ++ [obj1], ⟨some (h ++ ext).length⟩, ?_, ?_⟩
  · simp only [parrot.mimic, animal.clone, hc]
  · intro n
    rw [make_sound_holder _ _ obj1 h.length n (lookup_last _ _) hg1
      (by simp only [List.length_append, List.length_singleton]; omega)]
    exact hms n

/-- The holder made by `mimic` from a holder of a `dog` sounds like that holder. -/
theorem mimic_make_sound_transparent_witness :
    (∃ k, grounded k [.dog] (.parrot ⟨some 0⟩) = true) ∧
    ∃ h1 H, parrot.mimic [.dog] (.parrot ⟨some 0⟩) = .ok (h1, H) ∧
      ∀ n, H.make_sound h1 n = animal.make_sound [.dog] (.parrot ⟨some 0⟩) n :=
  ⟨⟨1, by decide⟩, mimic_make_sound_transparent [.dog] (.parrot ⟨some 0⟩) ⟨1, by decide⟩⟩

/-- What `parrot::clone` does on a non-empty holder whose chain is grounded: it clones
the held instance and then allocates the `parrot` that holds the clone. -/
theorem clone_holder_spec (h : Heap) (a : Addr)
    (hg : grounded h.length h (.parrot ⟨some a⟩) = true) :
    ∃ (obj : animal) (ext : Heap) (obj1 : animal),
      h[a]? = some obj ∧
      parrot.clone h ⟨some a⟩ =
        .ok (h ++ ext ++ [obj1] ++ [.parrot ⟨some (h ++ ext).length⟩],
          (h ++ ext ++ [obj1]).length) ∧
      obj1.type = obj.type := by
  cases hk : h.length with
  | zero =>
    rw [hk] at hg
    simp [grounded] at hg
  | succ k =>
    rw [hk] at hg
    simp only [grounded] at hg
    cases hl : h[a]? with
    | none => simp [hl] at hg
    | some obj =>
      rw [hl] at hg
      obtain ⟨ext, obj1, hc, ht, _⟩ := clone_aux_spec h k k obj hg (Nat.le_refl k)
      refine ⟨obj, ext, obj1, rfl, ?_, ht⟩
      simp only [parrot.clone, animal.clone, hk, clone_aux, hl, hc, alloc]

/-- C13: for every holder `H` whose chain of held instances ends, `H.clone()` returns
the address of a newly allocated object of class `parrot`, a holder that is empty if
and only if `H` is; when `H` is non-empty the new holder holds a newly allocated
instance, and for every type `T` its shared-pointer cast to `T` is non-null exactly
when that of `H` is. -/
theorem holder_clone_is_holder_of_duplicate (h : Heap) (H : parrot)
    (hg : ∃ k, grounded k h (.parrot H) = true) :
    ∃ h1 b q, parrot.clone h H = .ok (h1, b) ∧ h1[b]? = some (.parrot q) ∧
      h.length ≤ b ∧
      (q.internal_ = none ↔ H.internal_ = none) ∧
      (∀ a, H.internal_ = some a → ∃ a1, q.internal_ = some a1 ∧ h.length ≤ a1) ∧
      (∀ T : Ty,
        (q.operator_shared_ptr T h1).isSome = (H.operator_shared_ptr T h).isSome) := by
  obtain ⟨k0, hg0⟩ := hg
  have hg := grounded_length h k0 (.parrot H) hg0
  obtain ⟨i⟩ := H
  match i, hg with
  | none, _ =>
    refine ⟨h ++ [.parrot ⟨none⟩], h.length, ⟨none⟩, ?_, lookup_last _ _, Nat.le_refl _,
      Iff.rfl, ?_, fun T => rfl⟩
    · simp [parrot.clone, animal.clone, clone_aux, alloc]
    · intro a ha
      cases ha
  | some a, hg =>
    obtain ⟨obj, ext, obj1, hl, hc, ht⟩ := clone_holder_spec h a hg
    have hl1 : (h ++ ext ++ [obj1] ++ [animal.parrot ⟨some (h ++ ext).length⟩])[
        (h ++ ext).length]? = some obj1 :=
      lookup_append _ (lookup_last (h ++ ext) obj1)
    refine ⟨_, _, ⟨some (h ++ ext).length⟩, hc, lookup_last _ _, ?_, by simp, ?_, ?_⟩
    · simp only [List.length_append, List.length_singleton]
      omega
    · intro a1 _
      exact ⟨_, rfl, by simp⟩
    · intro T
      simp only [parrot.operator_shared_ptr, dynamic_pointer_cast, hl1, hl, ht]
      split <;> rfl

/-- The clone of a holder of a `dog`: a new `dog` at address 1 and the new `parrot`
that holds it at address 2. -/
theorem holder_clone_is_holder_of_duplicate_witness :
    (∃ k, grounded k [.dog] (.parrot ⟨some 0⟩) = true) ∧
    ∃ h1 b q, parrot.clone [.dog] ⟨some 0⟩ = .ok (h1, b) ∧ h1[b]? = some (.parrot q) ∧
      [animal.dog].length ≤ b ∧
      (q.internal_ = none ↔ (⟨some 0⟩ : parrot).internal_ = none) ∧
      (∀ a, (⟨some 0⟩ : parrot).internal_ = some a →
        ∃ a1, q.internal_ = some a1 ∧ [animal.dog].length ≤ a1) ∧
      (∀ T : Ty, (q.operator_shared_ptr T h1).isSome =
        (parrot.operator_shared_ptr T [.dog] ⟨some 0⟩).isSome) :=
  ⟨⟨1, by decide⟩, holder_clone_is_holder_of_duplicate [.dog] ⟨some 0⟩ ⟨1, by decide⟩⟩

/-! ## The wrapper `maybe` -/

/-- C14: for every `maybe<T>` `m`, `m.value()` throws the `std::logic_error` of an
invalid access if and only if `m.has_value()` is false, and returns the held value when
`m.has_value()` is true; `has_value()` is a total function, the member `has_value_`. -/
theorem maybe_value_fails_iff_absent {T : Type} (m : maybe T) :
    (m.value = .error (.logic_error "invalid access]") ↔ m.has_value = false) ∧
    ((∃ e, m.value = .error e) ↔ m.has_value = false) ∧
    (m.has_value = true → m.value = .ok m.internal_) ∧
    m.has_value = m.has_value_ := by
  obtain ⟨v, b⟩ := m
  cases b
  · refine ⟨⟨fun _ => rfl, fun _ => rfl⟩, ⟨fun _ => rfl, fun _ => ⟨_, rfl⟩⟩, ?_, rfl⟩
    intro hv
    cases hv
  · refine ⟨⟨?_, ?_⟩, ⟨?_, ?_⟩, fun _ => rfl, rfl⟩
    · intro hv
      cases hv
    · intro hv
      cases hv
    · rintro ⟨e, he⟩
      cases he
    · intro hv
      cases hv

/-- A present `maybe` of a `dog` returns the `dog`. -/
theorem maybe_value_fails_iff_absent_witness :
    (maybe.of_value animal.dog).has_value = true ∧
    (maybe.of_value animal.dog).value = .ok (maybe.of_value animal.dog).internal_ :=
  ⟨rfl, (maybe_value_fails_iff_absent (maybe.of_value animal.dog)).2.2.1 rfl⟩

/-- C15: for every value `v`, `maybe<T>(v)` has `has_value() == true` and `value()`
returns `v`; a `maybe` that is default-constructed or constructed from `nullopt` has
`has_value() == false`; and the copy of a `maybe` has the same `has_value()`, the same
payload and the same `value()`. -/
theorem maybe_constructors_and_copy {T : Type} (v dflt : T) (m : maybe T) :
    (maybe.of_value v).has_value = true ∧ (maybe.of_value v).value = .ok v ∧
    (maybe.init dflt).has_value = false ∧ (maybe.nullopt dflt).has_value = false ∧
    m.copy.has_value = m.has_value ∧ m.copy.internal_ = m.internal_ ∧
    m.copy.value = m.value ∧ m.copy = m :=
  ⟨rfl, rfl, rfl, rfl, rfl, rfl, rfl, rfl⟩

/-! ## Wrapping again, assigning, nesting -/

/-- C16: for every variant value `v` (a `dog` or a `cat`) of type `T`, the
shared-pointer cast to `T` of `mimic(v)` is non-null, `mimic` of its pointee returns a
holder whose shared-pointer cast to `T` is non-null again, and the pointee of that one
is equal to `v` and produces, for every `n`, the result of `v.make_sound(n)`. -/
theorem mimic_round_trip (h : Heap) (v : animal) (hv : v.type ≠ .parrot) :
    ∃ h1 H a obj h2 H2 a2 obj2,
      parrot.mimic h v = .ok (h1, H) ∧
      H.operator_shared_ptr v.type.toTy h1 = some a ∧ h1[a]? = some obj ∧
      parrot.mimic h1 obj = .ok (h2, H2) ∧
      H2.operator_shared_ptr v.type.toTy h2 = some a2 ∧ h2[a2]? = some obj2 ∧
      obj2 = v ∧ ∀ n, obj2.make_sound h2 n = v.make_sound h n := by
  match v, hv with
  | .dog, _ =>
    refine ⟨h ++ [animal.dog], ⟨some h.length⟩, h.length, .dog,
      h ++ [animal.dog] ++ [animal.dog], ⟨some (h ++ [animal.dog]).length⟩,
      (h ++ [animal.dog]).length, .dog, ?_, ?_, lookup_last _ _, ?_, ?_, lookup_last _ _,
      rfl, ?_⟩
    · simp [parrot.mimic, animal.clone, clone_aux, alloc]
    · simp [parrot.operator_shared_ptr, dynamic_pointer_cast, animal.type, Ty.is_base_of]
    · simp [parrot.mimic, animal.clone, clone_aux, alloc]
    · have hl2 : (h ++ [animal.dog] ++ [animal.dog])[(h ++ [animal.dog]).length]? =
          some animal.dog := lookup_last _ _
      simp only [parrot.operator_shared_ptr, dynamic_pointer_cast, hl2]
      rfl
    · intro n
      simp [animal.make_sound, make_sound_aux]
  | .cat, _ =>
    refine ⟨h ++ [animal.cat], ⟨some h.length⟩, h.length, .cat,
      h ++ [animal.cat] ++ [animal.cat], ⟨some (h ++ [animal.cat]).length⟩,
      (h ++ [animal.cat]).length, .cat, ?_, ?_, lookup_last _ _, ?_, ?_, lookup_last _ _,
      rfl, ?_⟩
    · simp [parrot.mimic, animal.clone, clone_aux, alloc]
    · simp [parrot.operator_shared_ptr, dynamic_pointer_cast, animal.type, Ty.is_base_of]
    · simp [parrot.mimic, animal.clone, clone_aux, alloc]
    · have hl2 : (h ++ [animal.cat] ++ [animal.cat])[(h ++ [animal.cat]).length]? =
          some animal.cat := lookup_last _ _
      simp only [parrot.operator_shared_ptr, dynamic_pointer_cast, hl2]
      rfl
    · intro n
      simp [animal.make_sound, make_sound_aux]
  | .parrot p, hv => simp [animal.type] at hv

/-- The round trip of a `cat` through two holders built from the empty heap. -/
theorem mimic_round_trip_witness :
    animal.type .cat ≠ .parrot ∧
    ∃ h1 H a obj h2 H2 a2 obj2,
      parrot.mimic [] .cat = .ok (h1, H) ∧
      H.operator_shared_ptr (animal.type .cat).toTy h1 = some a ∧ h1[a]? = some obj ∧
      parrot.mimic h1 obj = .ok (h2, H2) ∧
      H2.operator_shared_ptr (animal.type .cat).toTy h2 = some a2 ∧
      h2[a2]? = some obj2 ∧
      obj2 = .cat ∧ ∀ n, obj2.make_sound h2 n = animal.make_sound [] .cat n :=
  ⟨by decide, mimic_round_trip [] .cat (by decide)⟩

/-- C18: copy assignment of a holder is shallow: after `H2 = H1`, `H2` holds the
pointer of `H1`, the very same instance, and the heap is as it was, no `clone()` being
called; assigning from an empty `H1` makes `H2` empty and does not fail.  Copy
construction differs on both counts: from an empty holder it is undefined behaviour,
and from a non-empty holder whose chain ends it yields a holder of a newly allocated
instance. -/
theorem copy_assignment_is_shallow (h : Heap) (H1 H2 : parrot) :
    (H2.assign H1).internal_ = H1.internal_ ∧
    H2.assign H1 = H1 ∧
    H2.assign parrot.empty = parrot.empty ∧
    parrot.copy h parrot.empty = .error .null_deref ∧
    (∀ a, H1.internal_ = some a → (∃ k, grounded k h (.parrot H1) = true) →
      ∃ h1 H3 b, parrot.copy h H1 = .ok (h1, H3) ∧ H3.internal_ = some b ∧
        a < h.length ∧ h.length ≤ b ∧ H3.internal_ ≠ (H2.assign H1).internal_) := by
  refine ⟨rfl, rfl, rfl, rfl, ?_⟩
  intro a ha hg
  obtain ⟨k0, hg0⟩ := hg
  have hg := grounded_length h k0 (.parrot H1) hg0
  obtain ⟨i⟩ := H1
  cases ha
  obtain ⟨k, obj, ext, obj1, _, hl, _, hc, _⟩ := copy_spec h a hg
  have ha : a < h.length := lookup_lt hl
  have hb : h.length ≤ (h ++ ext).length := by simp
  refine ⟨_, _, (h ++ ext).length, hc, rfl, ha, hb, ?_⟩
  intro he
  have he1 : (h ++ ext).length = a := Option.some.inj he
  rw [he1] at hb
  exact absurd ha (Nat.not_lt.mpr hb)

/-- Assigning the holder of a `dog` to an empty holder shares the `dog`; copying it
allocates another one. -/
theorem copy_assignment_is_shallow_witness :
    (⟨some 0⟩ : parrot).internal_ = some 0 ∧
    (∃ k, grounded k [.dog] (.parrot ⟨some 0⟩) = true) ∧
    ∃ h1 H3 b, parrot.copy [.dog] ⟨some 0⟩ = .ok (h1, H3) ∧ H3.internal_ = some b ∧
      0 < [animal.dog].length ∧ [animal.dog].length ≤ b ∧
      H3.internal_ ≠ (parrot.empty.assign ⟨some 0⟩).internal_ :=
  ⟨rfl, ⟨1, by decide⟩,
    (copy_assignment_is_shallow [.dog] ⟨some 0⟩ parrot.empty).2.2.2.2 0 rfl ⟨1, by decide⟩⟩

/-- C19: for every `dog` or `cat` `v` and `H = mimic(mimic(v))`, the shared-pointer
cast of `H` to the type of `v` is null, the optional cast returns an absent `maybe`,
the value cast throws `std::logic_error("invalid cast")`, and the shared-pointer cast
of `H` to `parrot` is non-null: it is the pointer of `H`, to the inner holder. -/
theorem nested_holder_casts (h : Heap) (v : animal) (hv : v.type ≠ .parrot) :
    ∃ h1 H0 h2 H b,
      parrot.mimic h v = .ok (h1, H0) ∧ parrot.mimic h1 (.parrot H0) = .ok (h2, H) ∧
      H.operator_shared_ptr v.type.toTy h2 = none ∧
      (∃ m, H.operator_maybe v.type h2 = .ok (h2, m) ∧ m.has_value = false) ∧
      H.operator_T v.type h2 = .error (.logic_error "invalid cast") ∧
      H.operator_shared_ptr .parrot h2 = some b ∧ H.internal_ = some b ∧
      ∃ q, h2[b]? = some (.parrot q) := by
  have key : ∀ w : animal, w.type ≠ .parrot →
      parrot.mimic h w = .ok (h ++ [w], ⟨some h.length⟩) ∧
      parrot.mimic (h ++ [w]) (.parrot ⟨some h.length⟩) =
        .ok (h ++ [w] ++ [w] ++ [.parrot ⟨some (h ++ [w]).length⟩],
          ⟨some (h ++ [w] ++ [w]).length⟩) := by
    intro w hw
    match w, hw with
    | .dog, _ =>
      constructor
      · simp [parrot.mimic, animal.clone, clone_aux, alloc]
      · simp [parrot.mimic, animal.clone, clone_aux, alloc]
    | .cat, _ =>
      constructor
      · simp [parrot.mimic, animal.clone, clone_aux, alloc]
      · simp [parrot.mimic, animal.clone, clone_aux, alloc]
    | .parrot p, hw => simp [animal.type] at hw
  obtain ⟨hm1, hm2⟩ := key v hv
  have hl : (h ++ [v] ++ [v] ++ [animal.parrot ⟨some (h ++ [v]).length⟩])[
      (h ++ [v] ++ [v]).length]? = some (.parrot ⟨some (h ++ [v]).length⟩) :=
    lookup_last _ _
  have hcast : parrot.operator_shared_ptr v.type.toTy
      (h ++ [v] ++ [v] ++ [.parrot ⟨some (h ++ [v]).length⟩])
      ⟨some (h ++ [v] ++ [v]).length⟩ = none := by
    simp only [parrot.operator_shared_ptr, dynamic_pointer_cast, hl]
    match v, hv with
    | .dog, _ => rfl
    | .cat, _ => rfl
    | .parrot p, hv => simp [animal.type] at hv
  refine ⟨_, _, _, _, (h ++ [v] ++ [v]).length, hm1, hm2, hcast, ?_, ?_, ?_, rfl, _, hl⟩
  · exact ⟨maybe.nullopt v.type.init, by simp only [parrot.operator_maybe, hcast], rfl⟩
  · simp only [parrot.operator_T, hcast]
  · simp only [parrot.operator_shared_ptr, dynamic_pointer_cast, hl]
    rfl

/-- The holder of the holder of a `dog`, built from the empty heap. -/
theorem nested_holder_casts_witness :
    animal.type .dog ≠ .parrot ∧
    ∃ h1 H0 h2 H b,
      parrot.mimic [] .dog = .ok (h1, H0) ∧ parrot.mimic h1 (.parrot H0) = .ok (h2, H) ∧
      H.operator_shared_ptr (animal.type .dog).toTy h2 = none ∧
      (∃ m, H.operator_maybe (animal.type .dog) h2 = .ok (h2, m) ∧ m.has_value = false) ∧
      H.operator_T (animal.type .dog) h2 = .error (.logic_error "invalid cast") ∧
      H.operator_shared_ptr .parrot h2 = some b ∧ H.internal_ = some b ∧
      ∃ q, h2[b]? = some (.parrot q) :=
  ⟨by decide, nested_holder_casts [] .dog (by decide)⟩

/-! ## The string `rep_str` builds -/

/-- The loop of `rep_str` appends the plain repetition to what `result` held. -/
theorem append_loop_eq (view : String) : ∀ (k : Nat) (acc : String),
    detail.append_loop view k acc = acc ++ detail.plain_rep view k := by
  intro k
  induction k with
  | zero =>
    intro acc
    simp [detail.append_loop, detail.plain_rep]
  | succ k ih =>
    intro acc
    simp [detail.append_loop, detail.plain_rep, ih, String.append_assoc]

/-- The plain repetition of `s`, `k` times, has `k` times the length of `s`. -/
theorem plain_rep_length (s : String) : ∀ k : Nat,
    (detail.plain_rep s k).length = k * s.length := by
  intro k
  induction k with
  | zero => simp [detail.plain_rep]
  | succ k ih =>
    simp only [detail.plain_rep, String.length_append, ih, Nat.succ_mul]
    omega

/-- The string of `k` chars `'\0'` has length `k`. -/
theorem nul_string_length (k : Nat) :
    (String.mk (List.replicate k detail.NUL)).length = k := by
  simp [String.length]

/-- The function `rep_str` in terms of the size it requests. -/
theorem rep_str_eq (s : String) (n : Int) :
    detail.rep_str s n =
      if detail.max_size < detail.requested_size s n then .error .length_error
      else .ok (detail.append_loop s n.toNat
        (String.mk (List.replicate (detail.requested_size s n) detail.NUL))) :=
  rfl

/-- For `n >= 0` and a product that is a size of a string, the requested size is the
product `|s| * n`: nothing wraps. -/
theorem requested_size_eq (s : String) (n : Int) (hn : 0 ≤ n)
    (hs : s.length * n.toNat ≤ detail.max_size) :
    detail.requested_size s n = s.length * n.toNat := by
  unfold detail.requested_size
  have hmax : detail.max_size < 2 ^ 64 := by decide
  rcases Nat.eq_zero_or_pos s.length with h0 | hpos
  · simp [h0]
  · have hle : n.toNat ≤ s.length * n.toNat := Nat.le_mul_of_pos_left _ hpos
    have hn64 : n < 2 ^ 64 := by omega
    rw [Int.emod_eq_of_lt hn (by exact_mod_cast hn64)]
    exact Nat.mod_eq_of_lt (by omega)

/-- A requested size above `max_size` makes `rep_str` throw. -/
theorem rep_str_too_long (s : String) (n : Int)
    (h : detail.max_size < detail.requested_size s n) :
    detail.rep_str s n = .error .length_error := by
  rw [rep_str_eq]
  exact if_pos h

/-- The requested size of a string of length `L`. -/
theorem requested_size_of_length (s : String) (L : Nat) (n : Int) (hl : s.length = L) :
    detail.requested_size s n = (L * (n % 2 ^ 64).toNat) % 2 ^ 64 := by
  unfold detail.requested_size
  rw [hl]

/-- For a string of `2 ^ 33` chars and `n = 2 ^ 30` the product is `2 ^ 63`, which no
string can have as its size. -/
theorem long_string_size :
    detail.max_size < (2 ^ 33 * (((2 : Int) ^ 30) % 2 ^ 64).toNat) % 2 ^ 64 := by
  decide

/-- C17, as stated, fails: for the string of `2 ^ 33` chars `'a'` and `n = 2 ^ 30`, an
`int` that is `>= 0`, `rep_str` returns no string, `resize` throwing on the size
`2 ^ 63`. -/
theorem rep_str_fails_on_long_string :
    (0 : Int) ≤ 2 ^ 30 ∧
    (String.mk (List.replicate (2 ^ 33) 'a')).length = 2 ^ 33 ∧
    detail.rep_str (String.mk (List.replicate (2 ^ 33) 'a')) (2 ^ 30)
      = .error .length_error :=
  ⟨by decide, List.length_replicate _ _,
    rep_str_too_long _ _
      (lt_of_lt_of_eq long_string_size
        (requested_size_of_length _ (2 ^ 33) (2 ^ 30) (List.length_replicate _ _)).symm)⟩

/-- C17, amended: for every string `s` and every `n >= 0` such that the length
`2 * |s| * n` is a size a string can have, `rep_str(s, n)` returns the string of
`|s| * n` chars `'\0'` followed by `n` concatenated copies of `s`, of length
`2 * |s| * n`; it is the plain `n`-fold repetition of `s` if and only if
`|s| * n = 0`. -/
theorem rep_str_nul_prefix (s : String) (n : Int) (hn : 0 ≤ n)
    (hs : 2 * (s.length * n.toNat) ≤ detail.max_size) :
    detail.rep_str s n =
      .ok (String.mk (List.replicate (s.length * n.toNat) detail.NUL)
        ++ detail.plain_rep s n.toNat) ∧
    (String.mk (List.replicate (s.length * n.toNat) detail.NUL)
        ++ detail.plain_rep s n.toNat).length = 2 * s.length * n.toNat ∧
    (detail.rep_str s n = .ok (detail.plain_rep s n.toNat) ↔ s.length * n.toNat = 0) := by
  have hsize : detail.requested_size s n = s.length * n.toNat :=
    requested_size_eq s n hn (by omega)
  have hrep : detail.rep_str s n =
      .ok (String.mk (List.replicate (s.length * n.toNat) detail.NUL)
        ++ detail.plain_rep s n.toNat) := by
    rw [rep_str_eq, hsize, if_neg (by omega), append_loop_eq]
  have hlen : (String.mk (List.replicate (s.length * n.toNat) detail.NUL)
      ++ detail.plain_rep s n.toNat).length = 2 * s.length * n.toNat := by
    rw [String.length_append, nul_string_length, plain_rep_length, Nat.mul_comm n.toNat,
      Nat.mul_assoc]
    omega
  refine ⟨hrep, hlen, ?_, ?_⟩
  · intro he
    rw [hrep] at he
    have h1 := congrArg String.length (Except.ok.inj he)
    rw [hlen, plain_rep_length, Nat.mul_comm n.toNat, Nat.mul_assoc] at h1
    omega
  · intro h0
    rw [hrep, h0]
    simp

/-- The call `rep_str("woof", 2)` returns eight chars `'\0'` and `woofwoof`. -/
theorem rep_str_nul_prefix_witness :
    (0 : Int) ≤ 2 ∧ 2 * ("woof".length * (2 : Int).toNat) ≤ detail.max_size ∧
    detail.rep_str "woof" 2 =
      .ok (String.mk (List.replicate ("woof".length * (2 : Int).toNat) detail.NUL)
        ++ detail.plain_rep "woof" (2 : Int).toNat) ∧
    (String.mk (List.replicate ("woof".length * (2 : Int).toNat) detail.NUL)
        ++ detail.plain_rep "woof" (2 : Int).toNat).length
      = 2 * "woof".length * (2 : Int).toNat ∧
    (detail.rep_str "woof" 2 = .ok (detail.plain_rep "woof" (2 : Int).toNat) ↔
      "woof".length * (2 : Int).toNat = 0) :=
  ⟨by decide, by decide, rep_str_nul_prefix "woof" 2 (by decide) (by decide)⟩

/-- C20: for every negative `int` `n` and each of the patterns `woof`, `meow` and
`...?`, the size `rep_str` requests is `4 * n` modulo `2 ^ 64`, which is at least
`2 ^ 63`, so `resize` throws; `make_sound(n)` of a `dog`, of a `cat` and of an empty
holder then fails and writes nothing, in every heap. -/
theorem negative_n_make_sound_fails (n : Int) (hlo : -2 ^ 31 ≤ n) (hneg : n < 0) :
    (∀ view ∈ ["woof", "meow", "...?"],
      detail.requested_size view n = (4 * n % 2 ^ 64).toNat ∧
      2 ^ 63 ≤ detail.requested_size view n ∧
      detail.rep_str view n = .error .length_error) ∧
    (∀ h : Heap, animal.make_sound h .dog n = .error .length_error ∧
      animal.make_sound h .cat n = .error .length_error ∧
      parrot.make_sound h parrot.empty n = .error .length_error) := by
  have key : ∀ view : String, view.length = 4 →
      detail.requested_size view n = (4 * n % 2 ^ 64).toNat ∧
      2 ^ 63 ≤ detail.requested_size view n ∧
      detail.rep_str view n = .error .length_error := by
    intro view hv
    have h1 : detail.requested_size view n = (4 * n % 2 ^ 64).toNat := by
      rw [requested_size_of_length view 4 n hv]
      omega
    have h2 : 2 ^ 63 ≤ detail.requested_size view n := by
      rw [h1]
      omega
    refine ⟨h1, h2, rep_str_too_long view n ?_⟩
    have : detail.max_size = 2 ^ 63 - 1 := rfl
    omega
  have hw := (key "woof" (by decide)).2.2
  have hm := (key "meow" (by decide)).2.2
  have hq := (key "...?" (by decide)).2.2
  constructor
  · intro view hview
    simp only [List.mem_cons, List.mem_singleton, List.not_mem_nil, or_false] at hview
    rcases hview with e | e | e <;> subst e <;> exact key _ (by decide)
  · intro h
    refine ⟨?_, ?_, ?_⟩
    · simp only [animal.make_sound, make_sound_aux, hw]
      rfl
    · simp only [animal.make_sound, make_sound_aux, hm]
      rfl
    · simp only [parrot.make_sound, animal.make_sound, parrot.empty, make_sound_aux, hq]
      rfl

/-- The call `make_sound(-1)`: the requested size is `2 ^ 64 - 4`. -/
theorem negative_n_make_sound_fails_witness :
    -2 ^ 31 ≤ (-1 : Int) ∧ (-1 : Int) < 0 ∧
    (∀ view ∈ ["woof", "meow", "...?"],
      detail.requested_size view (-1) = (4 * (-1 : Int) % 2 ^ 64).toNat ∧
      2 ^ 63 ≤ detail.requested_size view (-1) ∧
      detail.rep_str view (-1) = .error .length_error) ∧
    (∀ h : Heap, animal.make_sound h .dog (-1) = .error .length_error ∧
      animal.make_sound h .cat (-1) = .error .length_error ∧
      parrot.make_sound h parrot.empty (-1) = .error .length_error) :=
  ⟨by decide, by decide, negative_n_make_sound_fails (-1) (by decide) (by decide)⟩

end sample
